import Mathlib

set_option maxRecDepth 8192

/-!
Verification of the path-addressed document patch engine of
drumato/cron-workflow-replicator (package `jsonpath`, file `evaluator.go`)
against its natural-language specification.

The Go code mutates `map[string]interface\x7b\x7d` trees in place; the
embedding below is a functional translation that rebuilds the tree along the
mutated path.  Because the trees produced by `encoding/json` are unaliased,
the functional rebuild and the in-place mutation agree on every observable
result; on error the applicator discards the working tree, so partial
mutations are unobservable as well.
-/

namespace CWR

/-- An exact decimal `mant * 10 ^ exp10`, the payload of a parsed finite
float.  The engine never compares or computes with float values, so this
unnormalised exact form is observationally equivalent to Go's `float64`
for everything stated below (IEEE rounding is not modelled). -/
structure Dec where
  mant : Int
  exp10 : Int
deriving DecidableEq

/-- A Go `float64` as it matters here: a finite value, an infinity, or
NaN. -/
inductive GFloat where
  | finite (d : Dec)
  | inf (neg : Bool)
  | nan
deriving DecidableEq

/-- A generic JSON-like tree value, the counterpart of the Go `interface`
trees that `encoding/json` produces and `evaluator.go` manipulates.
Go distinguishes `int` (from `strconv.Atoi`) from `float64` (from JSON
decoding and `strconv.ParseFloat`); both are kept. Go maps are modelled as
association lists with unique keys. -/
inductive Value where
  | null
  | bool (b : Bool)
  | int (n : Int)
  | float (f : GFloat)
  | str (s : String)
  | arr (elems : List Value)
  | obj (fields : List (String × Value))

/-- The model of Go `map[string]interface\x7b\x7d`. -/
abbrev JMap := List (String × Value)

/-- Go map read: `m[k]` with its `exists` flag folded into `Option`. -/
def mapGet : JMap → String → Option Value
  | [], _ => none
  | (k, v) :: rest, key => if k = key then some v else mapGet rest key

/-- Go map write: `m[k] = v` (replaces the existing binding or appends). -/
def mapSet : JMap → String → Value → JMap
  | [], key, v => [(key, v)]
  | (k, w) :: rest, key, v =>
    if k = key then (k, v) :: rest else (k, w) :: mapSet rest key v

/-- Decimal digits to a natural number. -/
def digitsToNat (ds : List Char) : Nat :=
  ds.foldl (fun acc c => acc * 10 + (c.toNat - 48)) 0

/-- Model of Go `strconv.Atoi`: an optional single sign, then one or more
decimal digits, the value required to fit a 64-bit `int` (Atoi reports a
range error otherwise). -/
def goAtoi (s : String) : Option Int :=
  let signAndDigits : Bool × List Char :=
    match s.data with
    | '-' :: rest => (true, rest)
    | '+' :: rest => (false, rest)
    | rest => (false, rest)
  let ds := signAndDigits.2
  if ds.isEmpty || !(ds.all Char.isDigit) then none
  else
    let v : Int :=
      if signAndDigits.1 then -(digitsToNat ds : Int) else (digitsToNat ds : Int)
    if v < -(2 ^ 63) || (2 ^ 63 - 1 : Int) < v then none else some v

/-- Whether the decimal `mant * 10 ^ exp10` reaches 2^1024 in magnitude,
the overflow threshold at which Go's float parsing reports a range
error.  (The exact threshold is used instead of the IEEE
round-to-infinity boundary; no statement below sits on that boundary.) -/
def decOverflow (mant : Int) (exp10 : Int) : Bool :=
  if 0 ≤ exp10 then 2 ^ 1024 ≤ mant.natAbs * 10 ^ exp10.toNat
  else (2 ^ 1024) * 10 ^ (-exp10).toNat ≤ mant.natAbs

/-- Splits at the first `e` or `E`, returning the part before it and,
when present, the part after it. -/
def splitAtFirstE : List Char → List Char × Option (List Char)
  | [] => ([], none)
  | c :: rest =>
    if c = 'e' || c = 'E' then ([], some rest)
    else
      let r := splitAtFirstE rest
      (c :: r.1, r.2)

/-- Splits at the first `.`, returning the part before it and, when
present, the part after it. -/
def splitAtFirstDot : List Char → List Char × Option (List Char)
  | [] => ([], none)
  | c :: rest =>
    if c = '.' then ([], some rest)
    else
      let r := splitAtFirstDot rest
      (c :: r.1, r.2)

/-- An optionally signed nonempty run of decimal digits (an exponent part,
also reused for bracketed path indices where `+` is excluded separately). -/
def parseSignedDigits : List Char → Option Int
  | '+' :: ds => if ds.isEmpty || !(ds.all Char.isDigit) then none else some (digitsToNat ds : Int)
  | '-' :: ds => if ds.isEmpty || !(ds.all Char.isDigit) then none else some (-(digitsToNat ds : Int))
  | ds => if ds.isEmpty || !(ds.all Char.isDigit) then none else some (digitsToNat ds : Int)

/-- The mantissa of a Go decimal float literal: digits with at most one
dot and at least one digit overall, as an exact decimal. -/
def parseMantissa (cs : List Char) : Option (Nat × Int) :=
  match splitAtFirstDot cs with
  | (ip, none) =>
    if ip.isEmpty || !(ip.all Char.isDigit) then none else some (digitsToNat ip, 0)
  | (ip, some fp) =>
    if (ip.isEmpty && fp.isEmpty) || !(ip.all Char.isDigit) || !(fp.all Char.isDigit) then none
    else some (digitsToNat (ip ++ fp), -(fp.length : Int))

/-- Mantissa with optional exponent, the unsigned body of a Go decimal
float literal. -/
def parseMantissaExp (cs : List Char) : Option (Nat × Int) :=
  match splitAtFirstE cs with
  | (mant, none) => parseMantissa mant
  | (mant, some e) =>
    match parseMantissa mant, parseSignedDigits e with
    | some m, some ex => some (m.1, m.2 + ex)
    | _, _ => none

/-- The unsigned remainder of Go `strconv.ParseFloat` after the sign:
`inf` and `infinity` (case-insensitively) or a decimal literal.  Values
at or beyond 2^1024 make ParseFloat report a range error, so they are
rejected.  Hexadecimal floats and digit-separating underscores are not
modelled; no statement below touches them. -/
def goParseFloatCore (neg : Bool) (rest : List Char) : Option GFloat :=
  let lowered := rest.map Char.toLower
  if lowered = "inf".data || lowered = "infinity".data then some (.inf neg)
  else
    match parseMantissaExp rest with
    | none => none
    | some m =>
      if decOverflow m.1 m.2 then none
      else some (.finite ⟨if neg then -(m.1 : Int) else (m.1 : Int), m.2⟩)

/-- Model of Go `strconv.ParseFloat(s, 64)`: optional sign, then `inf`,
`infinity` or a decimal literal; unsigned `nan` is also accepted. -/
def goParseFloat (s : String) : Option GFloat :=
  match s.data with
  | '-' :: rest => goParseFloatCore true rest
  | '+' :: rest => goParseFloatCore false rest
  | rest =>
    if rest.map Char.toLower = "nan".data then some .nan
    else goParseFloatCore false rest

/-! ### Model of `encoding/json` decoding into `interface` values

`convertValue` calls `json.Unmarshal` on bracketed literals.  The decoder
below follows the JSON grammar as Go's decoder applies it to untyped
targets: numbers become `float64` (range errors fail the whole decode),
later duplicate object keys overwrite earlier ones, and trailing
non-whitespace data is an error.  `\u` escapes are decoded as single code
points (surrogate-pair recombination is not modelled; no statement below
uses it). -/

/-- JSON insignificant whitespace. -/
def jsonWs (c : Char) : Bool :=
  c = ' ' || c = '\t' || c = '\n' || c = '\r'

/-- Drops leading JSON whitespace. -/
def skipWs : List Char → List Char
  | [] => []
  | c :: rest => if jsonWs c then skipWs rest else c :: rest

/-- Value of a hexadecimal digit. -/
def hexVal (c : Char) : Option Nat :=
  if '0' ≤ c && c ≤ '9' then some (c.toNat - 48)
  else if 'a' ≤ c && c ≤ 'f' then some (c.toNat - 87)
  else if 'A' ≤ c && c ≤ 'F' then some (c.toNat - 55)
  else none

/-- A single-character JSON escape. -/
def escChar : Char → Option Char
  | '"' => some '"'
  | '\\' => some '\\'
  | '/' => some '/'
  | 'b' => some (Char.ofNat 8)
  | 'f' => some (Char.ofNat 12)
  | 'n' => some '\n'
  | 'r' => some '\r'
  | 't' => some '\t'
  | _ => none

/-- Parses the body of a JSON string after the opening quote, returning
the decoded characters and the input after the closing quote. -/
def parseJsonStringChars : Nat → List Char → Option (List Char × List Char)
  | 0, _ => none
  | Nat.succ fuel, cs =>
    match cs with
    | [] => none
    | '"' :: rest => some ([], rest)
    | '\\' :: 'u' :: h1 :: h2 :: h3 :: h4 :: rest =>
      match hexVal h1, hexVal h2, hexVal h3, hexVal h4 with
      | some a, some b, some c, some d =>
        match parseJsonStringChars fuel rest with
        | some (tail, rest2) => some (Char.ofNat (((a * 16 + b) * 16 + c) * 16 + d) :: tail, rest2)
        | none => none
      | _, _, _, _ => none
    | '\\' :: e :: rest =>
      match escChar e with
      | some c =>
        match parseJsonStringChars fuel rest with
        | some (tail, rest2) => some (c :: tail, rest2)
        | none => none
      | none => none
    | c :: rest =>
      if c.toNat < 32 then none
      else
        match parseJsonStringChars fuel rest with
        | some (tail, rest2) => some (c :: tail, rest2)
        | none => none

/-- Characters Go's JSON scanner consumes as part of a number token. -/
def jsonNumChar (c : Char) : Bool :=
  c.isDigit || c = '-' || c = '+' || c = '.' || c = 'e' || c = 'E'

/-- The JSON integer part: `0`, or a nonzero digit followed by digits. -/
def jsonIntPartValid : List Char → Bool
  | [] => false
  | ['0'] => true
  | c :: rest => c.isDigit && c ≠ '0' && rest.all Char.isDigit

/-- A complete JSON number token, decoded to the exact decimal that Go
stores in a `float64` (values at or beyond 2^1024 fail the decode with a
range error, as in Go). -/
def parseJsonNumberToken (cs : List Char) : Option Dec :=
  let signAndBody : Bool × List Char :=
    match cs with
    | '-' :: r => (true, r)
    | r => (false, r)
  let body := signAndBody.2
  match splitAtFirstE body with
  | (mant, eopt) =>
    match splitAtFirstDot mant with
    | (ip, fpOpt) =>
      if !(jsonIntPartValid ip) then none
      else
        let base : Option (Nat × Int) :=
          match fpOpt with
          | none => some (digitsToNat ip, 0)
          | some fp =>
            if fp.isEmpty || !(fp.all Char.isDigit) then none
            else some (digitsToNat (ip ++ fp), -(fp.length : Int))
        match base with
        | none => none
        | some b =>
          let withExp : Option (Nat × Int) :=
            match eopt with
            | none => some b
            | some e => (parseSignedDigits e).map (fun ex => (b.1, b.2 + ex))
          match withExp with
          | none => none
          | some v =>
            if decOverflow v.1 v.2 then none
            else some ⟨if signAndBody.1 then -(v.1 : Int) else (v.1 : Int), v.2⟩

mutual

/-- One JSON value (leading whitespace allowed), returning the rest of the
input. -/
def parseJsonValue : Nat → List Char → Option (Value × List Char)
  | 0, _ => none
  | Nat.succ fuel, cs =>
    match skipWs cs with
    | 'n' :: 'u' :: 'l' :: 'l' :: rest => some (.null, rest)
    | 't' :: 'r' :: 'u' :: 'e' :: rest => some (.bool true, rest)
    | 'f' :: 'a' :: 'l' :: 's' :: 'e' :: rest => some (.bool false, rest)
    | '"' :: rest =>
      match parseJsonStringChars (rest.length + 1) rest with
      | some (content, rest2) => some (.str (String.mk content), rest2)
      | none => none
    | '[' :: rest =>
      match skipWs rest with
      | ']' :: rest2 => some (.arr [], rest2)
      | rest2 =>
        match parseJsonElems fuel rest2 with
        | some (elems, rest3) => some (.arr elems, rest3)
        | none => none
    | '\x7b' :: rest =>
      match skipWs rest with
      | '\x7d' :: rest2 => some (.obj [], rest2)
      | rest2 =>
        match parseJsonMembers fuel rest2 [] with
        | some (fields, rest3) => some (.obj fields, rest3)
        | none => none
    | c :: rest =>
      if c = '-' || c.isDigit then
        let tok := (c :: rest).takeWhile jsonNumChar
        match parseJsonNumberToken tok with
        | some q => some (.float (.finite q), (c :: rest).drop tok.length)
        | none => none
      else none
    | [] => none

/-- The elements of a nonempty JSON array after the opening bracket. -/
def parseJsonElems : Nat → List Char → Option (List Value × List Char)
  | 0, _ => none
  | Nat.succ fuel, cs =>
    match parseJsonValue fuel cs with
    | none => none
    | some (v, rest) =>
      match skipWs rest with
      | ',' :: rest2 =>
        match parseJsonElems fuel rest2 with
        | some (vs, rest3) => some (v :: vs, rest3)
        | none => none
      | ']' :: rest2 => some ([v], rest2)
      | _ => none

/-- The members of a nonempty JSON object after the opening brace,
accumulated with Go map semantics (a duplicate key overwrites). -/
def parseJsonMembers : Nat → List Char → JMap → Option (JMap × List Char)
  | 0, _, _ => none
  | Nat.succ fuel, cs, acc =>
    match skipWs cs with
    | '"' :: rest =>
      match parseJsonStringChars (rest.length + 1) rest with
      | none => none
      | some (key, rest2) =>
        match skipWs rest2 with
        | ':' :: rest3 =>
          match parseJsonValue fuel rest3 with
          | none => none
          | some (v, rest4) =>
            let acc2 := mapSet acc (String.mk key) v
            match skipWs rest4 with
            | ',' :: rest5 => parseJsonMembers fuel rest5 acc2
            | '\x7d' :: rest5 => some (acc2, rest5)
            | _ => none
        | _ => none
    | _ => none

end

/-- Model of `json.Unmarshal` into an untyped target: one value followed
only by whitespace.  The fuel is ample for every input because each
recursive call first consumes input. -/
def jsonUnmarshal (s : String) : Option Value :=
  match parseJsonValue (2 * s.data.length + 2) s.data with
  | some (v, rest) => if (skipWs rest).isEmpty then some v else none
  | none => none

/-- `json.Unmarshal` into `[]interface\x7b\x7d`: the document must be an
array (given the callers' bracket precheck). -/
def jsonUnmarshalArray (s : String) : Option (List Value) :=
  match jsonUnmarshal s with
  | some (.arr elems) => some elems
  | _ => none

/-- `json.Unmarshal` into `map[string]interface\x7b\x7d`: the document
must be an object (given the callers' brace precheck). -/
def jsonUnmarshalObj (s : String) : Option JMap :=
  match jsonUnmarshal s with
  | some (.obj fields) => some fields
  | _ => none

/-- Boolean list-prefix test (used to model `strings.HasPrefix` and,
reversed, `strings.HasSuffix`). -/
def listStartsWith : List Char → List Char → Bool
  | _, [] => true
  | [], _ :: _ => false
  | c :: cs, p :: ps => c = p && listStartsWith cs ps

/-- Model of Go `strings.HasPrefix`. -/
def strStartsWith (s p : String) : Bool := listStartsWith s.data p.data

/-- Model of Go `strings.HasSuffix`. -/
def strEndsWith (s p : String) : Bool := listStartsWith s.data.reverse p.data.reverse

/-- The object-literal fallback at the end of `convertValue`
(evaluator.go lines 129-138): try a JSON object, else keep the string. -/
def convertValueObjFallback (value : String) : Value :=
  if strStartsWith value "\x7b" && strEndsWith value "\x7d" then
    match jsonUnmarshalObj value with
    | some objVal => .obj objVal
    | none => .str value
  else .str value

/-- `convertValue` (evaluator.go lines 96-139): coerces a literal string,
first match wins, total.  Order: exact null, exact true/false, Atoi
integer, ParseFloat float, bracketed JSON array, braced JSON object,
else the string itself. -/
def convertValue (value : String) : Value :=
  if value = "null" then .null
  else if value = "true" then .bool true
  else if value = "false" then .bool false
  else
    match goAtoi value with
    | some intVal => .int intVal
    | none =>
      match goParseFloat value with
      | some floatVal => .float floatVal
      | none =>
        if strStartsWith value "[" && strEndsWith value "]" then
          match jsonUnmarshalArray value with
          | some arrayVal => .arr arrayVal
          | none => convertValueObjFallback value
        else convertValueObjFallback value

/-- The Value Coercer exactly as the specification words it (spec section
4.1, first match wins): 1. exact `null`; 2. exact `true` or `false`;
3. integer-parseable; 4. float-parseable; 5. starts with `[`, ends with
`]` and decodes as a JSON array; 6. starts and ends with braces and
decodes as a JSON object; 7. otherwise the literal string unchanged.
Stated from the specification for comparison with `convertValue`; the
specification directs implementers to the language's standard numeric
and JSON parsers, so those models are shared. -/
def coerceSpec (literal : String) : Value :=
  if literal = "null" then .null
  else if literal = "true" then .bool true
  else if literal = "false" then .bool false
  else
    match goAtoi literal with
    | some n => .int n
    | none =>
      match goParseFloat literal with
      | some f => .float f
      | none =>
        if strStartsWith literal "[" && strEndsWith literal "]" then
          match jsonUnmarshalArray literal with
          | some elems => .arr elems
          | none => convertValueObjFallback literal
        else convertValueObjFallback literal

/-! ### Path parsing (`parseJSONPath`, evaluator.go lines 414-474) -/

/-- A parsed path segment (evaluator.go lines 17-21): a key, an optional
array index, and the negative-index flag (set exactly when the index is
negative). -/
structure PathSegment where
  key : String
  arrayIndex : Option Int
  isNegative : Bool
deriving DecidableEq

/-- Every error the embedded code can produce, one constructor per
`fmt.Errorf` site (arguments are the values interpolated into the Go
message), plus the failures of the external oliveagle jsonpath library
and a constructor for the Go runtime panic on a negative slice index,
which no parsed path can reach. -/
inductive EvalError where
  | invalidPathNoDollar
  | invalidArrayIndexInSegment (segment : String)
  | keyNotArray (key : String)
  | negativeIndexOnEmptyArray (index : Int)
  | negativeIndexOutOfBounds (index : Int) (length : Nat)
  | indexOutOfBounds (index : Int) (length : Nat)
  | indexPanic (index : Int)
  | notAMapCreate (key : String)
  | notAMapNavigate (key : String)
  | oliveagleInvalidSyntax (token : String)
  | oliveagleNoDollar
  | compileFailed (path : String) (inner : EvalError)
  | parseFailed (inner : EvalError)
  | applyFailed (path : String) (inner : EvalError)
deriving DecidableEq

/-- `strings.Split` on `.` (keeps empty pieces). -/
def splitDots : List Char → List (List Char)
  | [] => [[]]
  | '.' :: rest => [] :: splitDots rest
  | c :: rest =>
    match splitDots rest with
    | [] => [[c]]
    | p :: ps => (c :: p) :: ps

/-- An optional `-` followed by at least one decimal digit: what the
regex group in the bracket pattern accepts. -/
def indexBody : List Char → Bool
  | '-' :: ds => !ds.isEmpty && ds.all Char.isDigit
  | ds => !ds.isEmpty && ds.all Char.isDigit

/-- Model of matching a raw segment against the Go regex
`^(.+)\[(-?\d+)\]$` (evaluator.go line 434): the segment must end in `]`,
and the text after its last `[` up to that `]` must be an optionally
negated digit run, with a nonempty key before the `[`.  Because the digit
run cannot contain `[`, only the last `[` can satisfy the greedy
pattern. -/
def segMatch (raw : List Char) : Option (List Char × List Char) :=
  match raw.reverse with
  | ']' :: bodyRev =>
    let idxRev := bodyRev.takeWhile (fun c => c ≠ '[')
    match bodyRev.drop idxRev.length with
    | '[' :: keyRev =>
      if !keyRev.isEmpty && indexBody idxRev.reverse then
        some (keyRev.reverse, idxRev.reverse)
      else none
    | _ => none
  | _ => none

/-- The integer denoted by an optionally negated digit run. -/
def charsToInt : List Char → Int
  | '-' :: ds => -(digitsToNat ds : Int)
  | ds => (digitsToNat ds : Int)

/-- One raw segment to a `PathSegment` (evaluator.go lines 445-470): a
regex match yields an indexed segment, with the index put through
`strconv.Atoi` (whose only possible failure here is 64-bit overflow);
anything else is a plain key. -/
def parseRawSegment (raw : List Char) : Except EvalError PathSegment :=
  match segMatch raw with
  | some (key, idx) =>
    let n := charsToInt idx
    if n < -(2 ^ 63) || (2 ^ 63 - 1 : Int) < n then
      .error (.invalidArrayIndexInSegment (String.mk raw))
    else .ok ⟨String.mk key, some n, decide (n < 0)⟩
  | none => .ok ⟨String.mk raw, none, false⟩

/-- The loop of `parseJSONPath` over the dot-split pieces (evaluator.go
lines 437-471): empty pieces are skipped, the rest parsed in order with
the first failure propagated. -/
def parseRawSegments : List (List Char) → Except EvalError (List PathSegment)
  | [] => .ok []
  | raw :: rest =>
    if raw.isEmpty then parseRawSegments rest
    else
      match parseRawSegment raw with
      | .error e => .error e
      | .ok seg =>
        match parseRawSegments rest with
        | .error e => .error e
        | .ok segs => .ok (seg :: segs)

/-- `parseJSONPath` (evaluator.go lines 414-474): require a leading `$`,
strip it and an optional leading dot, an empty remainder is the root,
otherwise split on dots and parse each piece. -/
def parseJSONPath (path : String) : Except EvalError (List PathSegment) :=
  match path.data with
  | '$' :: rest =>
    let rest := match rest with
      | '.' :: r => r
      | r => r
    if rest.isEmpty then .ok []
    else parseRawSegments (splitDots rest)
  | _ => .error .invalidPathNoDollar

/-- `isArrayElementPath` (evaluator.go lines 355-371): true exactly when
the path parses and some segment (any segment, not only the last one)
carries an array index; a parse failure yields false. -/
def isArrayElementPath (path : String) : Bool :=
  match parseJSONPath path with
  | .error _ => false
  | .ok segs => segs.any (fun seg => seg.arrayIndex.isSome)

/-- The dispatch condition at the head of `setValueAtPath` (evaluator.go
lines 146-152): the coerced value is a sequence and `isArrayElementPath`
does not hold, in which case the whole sequence stored at the final key
is replaced via `setArrayValue`, bypassing per-element mutation. -/
def usesWholeSequenceReplacement (path value : String) : Bool :=
  (match convertValue value with
   | .arr _ => true
   | _ => false) && !(isArrayElementPath path)

/-! ### Tree mutation (evaluator.go lines 170-412) -/

/-- The shared prologue of `setValueAtArrayIndex` and
`navigateToArrayElement` (evaluator.go lines 219-229 and 260-272): the
value at the key must be an array if present; a missing key starts from
an empty array. -/
def resolveArray (parent : JMap) (arrayKey : String) : Except EvalError (List Value) :=
  match mapGet parent arrayKey with
  | some (.arr a) => .ok a
  | some _ => .error (.keyNotArray arrayKey)
  | none => .ok []

/-- The index-resolution block both mutators duplicate (evaluator.go
lines 231-241 and 274-284): a non-negative index stands; a negative one
requires a nonempty array and resolves to length plus index, which must
not remain negative. -/
def computeActualIndex (arr : List Value) (index : Int) (isNegative : Bool) :
    Except EvalError Int :=
  if isNegative then
    if arr.length = 0 then .error (.negativeIndexOnEmptyArray index)
    else
      let actual := (arr.length : Int) + index
      if actual < 0 then .error (.negativeIndexOutOfBounds index arr.length)
      else .ok actual
  else .ok index

/-- `setValueAtArrayIndex` (evaluator.go lines 217-256): resolve the
array and the index, pad with nulls up to a positive index beyond the
current length, then assign the coerced value there.  (A negative
resolved index would make the Go code panic on the slice write; that is
unreachable from parsed paths and modelled as `indexPanic`.) -/
def setValueAtArrayIndex (parent : JMap) (arrayKey : String) (index : Int)
    (isNegative : Bool) (value : String) : Except EvalError JMap :=
  match resolveArray parent arrayKey with
  | .error e => .error e
  | .ok arr =>
    match computeActualIndex arr index isNegative with
    | .error e => .error e
    | .ok actual =>
      if actual < 0 then .error (.indexPanic actual)
      else
        let i := actual.toNat
        let arr := if arr.length ≤ i then arr ++ List.replicate (i + 1 - arr.length) Value.null else arr
        .ok (mapSet parent arrayKey (.arr (arr.set i (convertValue value))))

/-- `navigateToArrayElement` (evaluator.go lines 258-312), split from its
callers' recursion: resolve the array and the index, extend with empty
mappings while a non-negative index is beyond the length, re-check the
bounds, and coerce a non-mapping element into an empty mapping.  Returns
the updated array, the element index, and the element's mapping for the
caller to descend into. -/
def navigateToArrayElement (current : JMap) (arrayKey : String) (index : Int)
    (isNegative : Bool) : Except EvalError (List Value × Nat × JMap) :=
  match resolveArray current arrayKey with
  | .error e => .error e
  | .ok arr =>
    match computeActualIndex arr index isNegative with
    | .error e => .error e
    | .ok actual =>
      let arr :=
        if (arr.length : Int) ≤ actual && !isNegative then
          arr ++ List.replicate ((actual + 1 - arr.length).toNat) (Value.obj [])
        else arr
      if (arr.length : Int) ≤ actual then .error (.indexOutOfBounds actual arr.length)
      else if actual < 0 then .error (.indexPanic actual)
      else
        let i := actual.toNat
        match arr.get? i with
        | some (.obj m) => .ok (arr, i, m)
        | _ => .ok (arr.set i (.obj []), i, [])

/-- `createPathAndSetValue` after path parsing (evaluator.go lines
179-215): walk the segments, autovivifying missing mappings and arrays;
the terminal segment receives the coerced value, through
`setValueAtArrayIndex` when indexed. -/
def createPathAndSetValue : JMap →
    List PathSegment → String → Except EvalError JMap
  | current, [], _ => .ok current
  | current, seg :: rest, value =>
    match rest with
    | [] =>
      match seg.arrayIndex with
      | some idx => setValueAtArrayIndex current seg.key idx seg.isNegative value
      | none => .ok (mapSet current seg.key (convertValue value))
    | _ :: _ =>
      match seg.arrayIndex with
      | some idx =>
        match navigateToArrayElement current seg.key idx seg.isNegative with
        | .error e => .error e
        | .ok (arr, i, elem) =>
          match createPathAndSetValue elem rest value with
          | .error e => .error e
          | .ok sub => .ok (mapSet current seg.key (.arr (arr.set i (.obj sub))))
      | none =>
        match mapGet current seg.key with
        | none =>
          match createPathAndSetValue [] rest value with
          | .error e => .error e
          | .ok sub => .ok (mapSet current seg.key (.obj sub))
        | some (.obj m) =>
          match createPathAndSetValue m rest value with
          | .error e => .error e
          | .ok sub => .ok (mapSet current seg.key (.obj sub))
        | some _ => .error (.notAMapCreate seg.key)

/-- `replaceValueAtPath` after path parsing (evaluator.go lines 314-353):
like the create walk but a plain intermediate key must already hold a
mapping (the Go code receives the looked-up existing value as an
argument and never uses it; it is omitted here). -/
def replaceValueAtPath : JMap →
    List PathSegment → String → Except EvalError JMap
  | current, [], _ => .ok current
  | current, seg :: rest, value =>
    match rest with
    | [] =>
      match seg.arrayIndex with
      | some idx => setValueAtArrayIndex current seg.key idx seg.isNegative value
      | none => .ok (mapSet current seg.key (convertValue value))
    | _ :: _ =>
      match seg.arrayIndex with
      | some idx =>
        match navigateToArrayElement current seg.key idx seg.isNegative with
        | .error e => .error e
        | .ok (arr, i, elem) =>
          match replaceValueAtPath elem rest value with
          | .error e => .error e
          | .ok sub => .ok (mapSet current seg.key (.arr (arr.set i (.obj sub))))
      | none =>
        match mapGet current seg.key with
        | some (.obj m) =>
          match replaceValueAtPath m rest value with
          | .error e => .error e
          | .ok sub => .ok (mapSet current seg.key (.obj sub))
        | _ => .error (.notAMapNavigate seg.key)

/-- `setArrayValue` after path parsing (evaluator.go lines 373-412): walk
to the parent like the create walk, and store the whole decoded array at
the terminal segment's key (any terminal index is ignored; the dispatch
guarantees there is none). -/
def setArrayValue : JMap →
    List PathSegment → List Value → Except EvalError JMap
  | current, [], _ => .ok current
  | current, seg :: rest, arrayVal =>
    match rest with
    | [] => .ok (mapSet current seg.key (.arr arrayVal))
    | _ :: _ =>
      match seg.arrayIndex with
      | some idx =>
        match navigateToArrayElement current seg.key idx seg.isNegative with
        | .error e => .error e
        | .ok (arr, i, elem) =>
          match setArrayValue elem rest arrayVal with
          | .error e => .error e
          | .ok sub => .ok (mapSet current seg.key (.arr (arr.set i (.obj sub))))
      | none =>
        match mapGet current seg.key with
        | none =>
          match setArrayValue [] rest arrayVal with
          | .error e => .error e
          | .ok sub => .ok (mapSet current seg.key (.obj sub))
        | some (.obj m) =>
          match setArrayValue m rest arrayVal with
          | .error e => .error e
          | .ok sub => .ok (mapSet current seg.key (.obj sub))
        | some _ => .error (.notAMapNavigate seg.key)

/-! ### The external oliveagle jsonpath library

`setValueAtPath` first compiles the path and looks it up with
`github.com/oliveagle/jsonpath`, which is a dependency, not code of this
repository. -/

/-- The per-piece loop of the oliveagle compile model. -/
def oliveagleCompileSegs : List (List Char) → Except EvalError (List PathSegment)
  | [] => .ok []
  | raw :: rest =>
    if raw.isEmpty then oliveagleCompileSegs rest
    else
      match segMatch raw with
      | some (key, idx) =>
        match oliveagleCompileSegs rest with
        | .error e => .error e
        | .ok segs =>
          let n := charsToInt idx
          .ok (⟨String.mk key, some n, decide (n < 0)⟩ :: segs)
      | none =>
        if raw.contains '[' then .error (.oliveagleInvalidSyntax (String.mk raw))
        else
          match oliveagleCompileSegs rest with
          | .error e => .error e
          | .ok segs => .ok (⟨String.mk raw, none, false⟩ :: segs)

/-- Modelled from the spec: the compile step of the external oliveagle
jsonpath library, whose source is not part of this repository.  On the
dotted `key` / `key[integer]` subset this engine emits, compilation
requires the leading `$` and rejects a bracketed subscript that is not a
decimal integer with a strconv "invalid syntax" error (the repository's
test suite records exactly that failure for `$.spec.templates[abc].name`). -/
def oliveagleCompile (path : String) : Except EvalError (List PathSegment) :=
  match path.data with
  | '$' :: rest =>
    let rest := match rest with
      | '.' :: r => r
      | r => r
    oliveagleCompileSegs (splitDots rest)
  | _ => .error .oliveagleNoDollar

/-- Modelled from the spec: the lookup step of the external oliveagle
jsonpath library on an already-compiled dotted path.  A key resolves in a
mapping, an index in a sequence (negative indices count from the end);
any missing key, wrong shape or out-of-range index is a lookup error,
rendered as `none`. -/
def oliveagleLookupSegs : Value → List PathSegment → Option Value
  | v, [] => some v
  | v, seg :: rest =>
    match v with
    | .obj m =>
      match mapGet m seg.key with
      | none => none
      | some w =>
        match seg.arrayIndex with
        | none => oliveagleLookupSegs w rest
        | some i =>
          match w with
          | .arr a =>
            let j : Int := if i < 0 then (a.length : Int) + i else i
            if 0 ≤ j && j < (a.length : Int) then
              match a.get? j.toNat with
              | some elem => oliveagleLookupSegs elem rest
              | none => none
            else none
          | _ => none
    | _ => none

/-! ### `setValueAtPath` and `ApplyPaths` (evaluator.go lines 36-61 and
141-168) -/

/-- The non-whole-sequence route of `setValueAtPath` (evaluator.go lines
154-168): compile the path with the external library, look it up, and
create the path when the lookup fails, else replace along it. -/
def setValueAtPathViaLookup (target : JMap) (path value : String) :
    Except EvalError JMap :=
  match oliveagleCompile path with
  | .error e => .error (.compileFailed path e)
  | .ok compiledSegs =>
    match oliveagleLookupSegs (.obj target) compiledSegs with
    | none =>
      match parseJSONPath path with
      | .error e => .error (.parseFailed e)
      | .ok segs => createPathAndSetValue target segs value
    | some _ =>
      match parseJSONPath path with
      | .error e => .error (.parseFailed e)
      | .ok segs => replaceValueAtPath target segs value

/-- `setValueAtPath` (evaluator.go lines 141-168): if the coerced value
is a sequence and no parsed segment has an index, replace the whole
sequence; otherwise go through compile and lookup. -/
def setValueAtPath (target : JMap) (path value : String) : Except EvalError JMap :=
  match convertValue value with
  | .arr arrayVal =>
    if isArrayElementPath path then setValueAtPathViaLookup target path value
    else
      match parseJSONPath path with
      | .error e => .error (.parseFailed e)
      | .ok segs => setArrayValue target segs arrayVal
  | _ => setValueAtPathViaLookup target path value

/-- One path-value edit (config.PathValue). -/
structure PathValue where
  path : String
  value : String

/-- The edit loop of `ApplyPaths` (evaluator.go lines 48-53): strict list
order, each failure wrapped with the originating path and returned at
once. -/
def applyLoop (targetMap : JMap) : List PathValue → Except EvalError JMap
  | [] => .ok targetMap
  | pv :: rest =>
    match setValueAtPath targetMap pv.path pv.value with
    | .error e => .error (.applyFailed pv.path e)
    | .ok m => applyLoop m rest

/-- `ApplyPaths` (evaluator.go lines 36-61), with the struct-to-map JSON
round trip taken as the identity on the generic tree.  The returned pair
is the call's result and the caller-visible record afterwards: the Go
code mutates a JSON-decoded copy and writes the caller's record only
after every edit has succeeded, so on error the record is the original. -/
def ApplyPathsState (target : JMap) (paths : List PathValue) :
    Except EvalError Unit × JMap :=
  if paths.isEmpty then (.ok (), target)
  else
    match applyLoop target paths with
    | .error e => (.error e, target)
    | .ok m => (.ok (), m)

/-! ## Theorems settling the claims -/

/-- C3: the value coercer is a total function on strings (it is a Lean
function) whose result follows the fixed first-match order of the code:
exact null, exact true and false, Atoi integer, ParseFloat float,
bracketed JSON array, braced JSON object, otherwise the unchanged
string; it agrees everywhere with the coercer transcribed from the
specification's own ordered description, and realises the
specification's concrete examples, including the fallback of malformed
bracketed text and of the empty string to themselves. -/
theorem convertValue_follows_spec_order :
    (∀ s : String, convertValue s = coerceSpec s) ∧
    convertValue "null" = .null ∧
    convertValue "true" = .bool true ∧
    convertValue "false" = .bool false ∧
    convertValue "123" = .int 123 ∧
    convertValue "12.5" = .float (.finite ⟨125, -1⟩) ∧
    convertValue "[1,2,\"three\"]" =
      .arr [.float (.finite ⟨1, 0⟩), .float (.finite ⟨2, 0⟩), .str "three"] ∧
    convertValue "not json[" = .str "not json[" ∧
    convertValue "" = .str "" :=
  ⟨fun _ => rfl, rfl, rfl, rfl, rfl, rfl, rfl, rfl, rfl⟩

/-- C6: applying an empty edit list succeeds and returns the base record
unchanged; the empty-list fast path of ApplyPaths returns before any
conversion or mutation takes place. -/
theorem applyPaths_empty_identity (r : JMap) :
    ApplyPathsState r [] = (.ok (), r) := rfl

/-- C10: empty pieces between consecutive dots or after a trailing dot
are skipped by the parser loop, so such a path parses to exactly the
segments of the path with the empty pieces removed instead of failing. -/
theorem parseJSONPath_skips_empty_pieces :
    (∀ pieces : List (List Char),
      parseRawSegments pieces =
        parseRawSegments (pieces.filter (fun p => !p.isEmpty))) ∧
    parseJSONPath "$.a..b" = .ok [⟨"a", none, false⟩, ⟨"b", none, false⟩] ∧
    parseJSONPath "$.a." = .ok [⟨"a", none, false⟩] ∧
    parseJSONPath "$.a..b" = parseJSONPath "$.a.b" ∧
    parseJSONPath "$.a." = parseJSONPath "$.a" := by
  refine ⟨?_, rfl, rfl, rfl, rfl⟩
  intro pieces
  induction pieces with
  | nil => rfl
  | cons raw rest ih =>
    by_cases h : raw.isEmpty
    · simp [parseRawSegments, h, List.filter_cons, ih]
    · simp [parseRawSegments, h, List.filter_cons, ← ih]

/-- C5 counterexample: for the reversed edit list, where the whole-array
replacement comes first and the element write second, the resulting
templates array has two elements, not one: the element write descends
into element 0 of the replaced two-element array and leaves its length
unchanged. -/
theorem editOrder_reversed_length_cx :
    applyLoop [] [⟨"$.templates", "[\"x\",\"y\"]"⟩, ⟨"$.templates[0].name", "a"⟩] =
      .ok [("templates", .arr [.obj [("name", .str "a")], .str "y"])] ∧
    [Value.obj [("name", .str "a")], .str "y"].length = 2 := ⟨rfl, rfl⟩

/-- C5 amended: edits apply strictly in list order, so the later
whole-array replacement supersedes the earlier element write and yields
exactly the two replacement strings; for the reversed list the element
write lands in element 0 of the previously replaced array, giving
templates[0].name = "a" in a length-2 array that retains "y". -/
theorem editOrder_supersede_amended :
    applyLoop [] [⟨"$.templates[0].name", "a"⟩, ⟨"$.templates", "[\"x\",\"y\"]"⟩] =
      .ok [("templates", .arr [.str "x", .str "y"])] ∧
    applyLoop [] [⟨"$.templates", "[\"x\",\"y\"]"⟩, ⟨"$.templates[0].name", "a"⟩] =
      .ok [("templates", .arr [.obj [("name", .str "a")], .str "y"])] := ⟨rfl, rfl⟩

/-- C2 counterexample: parsing "$.spec.templates[abc].name" succeeds,
the non-numeric bracketed text kept as part of its key, and with a
sequence-coerced value the whole edit even succeeds, writing under the
literal key "templates[abc]" - the repository's parser does not fail
with an invalid-path error there. -/
theorem parseJSONPath_nonNumericIndex_cx :
    parseJSONPath "$.spec.templates[abc].name" =
      .ok [⟨"spec", none, false⟩, ⟨"templates[abc]", none, false⟩,
        ⟨"name", none, false⟩] ∧
    setValueAtPath [] "$.spec.templates[abc].name" "[1]" =
      .ok [("spec", .obj [("templates[abc]",
        .obj [("name", .arr [.float (.finite ⟨1, 0⟩)])])])] :=
  ⟨rfl, rfl⟩

/-- C2 amended: the repository's parser turns any nonempty dot-piece
that does not match the bracket-index pattern into a plain key segment,
keeping the bracketed text in the key; the failure the specification
describes for such a path arises in setValueAtPath from the external
jsonpath library's compile step, which rejects the non-numeric
subscript carrying the offending token. -/
theorem parseJSONPath_nonNumericIndex_amended :
    (∀ raw : List Char, segMatch raw = none → raw.isEmpty = false →
      parseRawSegments [raw] = .ok [⟨String.mk raw, none, false⟩]) ∧
    setValueAtPath [] "$.spec.templates[abc].name" "test" =
      .error (.compileFailed "$.spec.templates[abc].name"
        (.oliveagleInvalidSyntax "templates[abc]")) := by
  refine ⟨?_, rfl⟩
  intro raw h hne
  simp [parseRawSegments, hne, parseRawSegment, h]

/-- C2 amended witness: the concrete offending piece from the
specification's example is kept as a plain key. -/
theorem parseJSONPath_nonNumericIndex_amended_witness :
    parseRawSegments ["templates[abc]".data] =
      .ok [⟨"templates[abc]", none, false⟩] :=
  parseJSONPath_nonNumericIndex_amended.1 "templates[abc]".data rfl rfl

/-- C1 counterexample: for the path "$.a[0].b" the final segment has no
array index and the value "[1,2]" coerces to a sequence, yet
whole-sequence replacement is not applied: isArrayElementPath reports an
index on some (here a non-terminal) segment, which disables the
replacement, contradicting the claim's final-segment-only rule. -/
theorem wholeSequenceReplacement_terminalRule_cx :
    convertValue "[1,2]" =
      .arr [.float (.finite ⟨1, 0⟩), .float (.finite ⟨2, 0⟩)] ∧
    parseJSONPath "$.a[0].b" =
      .ok [⟨"a", some 0, false⟩, ⟨"b", none, false⟩] ∧
    isArrayElementPath "$.a[0].b" = true ∧
    usesWholeSequenceReplacement "$.a[0].b" "[1,2]" = false :=
  ⟨rfl, rfl, rfl, rfl⟩

/-- C1 amended: whole-sequence replacement is applied exactly when the
coerced value is a sequence and no segment of the parsed path, terminal
or not, carries an array index (an unparseable path counts as
index-free); when the guard holds, setValueAtPath routes the edit to
setArrayValue, bypassing per-element mutation. -/
theorem wholeSequenceReplacement_iff_noIndexedSegment (path value : String) :
    (usesWholeSequenceReplacement path value = true ↔
      ((∃ a, convertValue value = .arr a) ∧
        ∀ segs, parseJSONPath path = .ok segs →
          ∀ seg ∈ segs, seg.arrayIndex = none)) ∧
    (usesWholeSequenceReplacement path value = true →
      ∀ (target : JMap) (segs : List PathSegment) (a : List Value),
        parseJSONPath path = .ok segs → convertValue value = .arr a →
        setValueAtPath target path value = setArrayValue target segs a) := by
  constructor
  · unfold usesWholeSequenceReplacement isArrayElementPath
    cases hv : convertValue value <;>
      cases hp : parseJSONPath path <;>
        simp [List.any_eq_true, Option.isSome_iff_exists] <;>
          exact forall₂_congr fun seg _ => by cases seg.arrayIndex <;> simp
  · intro h target segs a hp hv
    have hA : isArrayElementPath path = false := by
      have h2 : (!isArrayElementPath path) = true := by
        simp only [usesWholeSequenceReplacement, Bool.and_eq_true] at h
        exact h.2
      simpa using h2
    simp [setValueAtPath, hv, hA, hp]

/-- C1 amended witness: a whole-sequence edit on an index-free path takes
the replacement route. -/
theorem wholeSequenceReplacement_iff_witness :
    usesWholeSequenceReplacement "$.templates" "[\"x\",\"y\"]" = true ∧
    setValueAtPath [] "$.templates" "[\"x\",\"y\"]" =
      setArrayValue [] [⟨"templates", none, false⟩] [.str "x", .str "y"] := by
  have h := wholeSequenceReplacement_iff_noIndexedSegment "$.templates" "[\"x\",\"y\"]"
  have hval : usesWholeSequenceReplacement "$.templates" "[\"x\",\"y\"]" = true := by
    apply h.1.mpr
    refine ⟨⟨[.str "x", .str "y"], rfl⟩, ?_⟩
    intro segs hp seg hseg
    rw [show parseJSONPath "$.templates" = .ok [⟨"templates", none, false⟩] from rfl] at hp
    injection hp with hp
    subst hp
    simp at hseg
    subst hseg
    rfl
  exact ⟨hval, h.2 hval [] [⟨"templates", none, false⟩] [.str "x", .str "y"] rfl rfl⟩

/-- C8: for a non-terminal, non-indexed segment the create walk
autovivifies a missing key as an empty mapping and descends, while an
existing non-mapping value at the key is the not-a-map structural
error; concretely, the single edit of "$.metadata.labels.app" to "x"
on an empty record creates metadata.labels with app set to "x". -/
theorem autovivification_nonterminal (current : JMap) (key : String)
    (rest : List PathSegment) (v : String) (hrest : rest ≠ []) :
    (mapGet current key = none →
      createPathAndSetValue current (⟨key, none, false⟩ :: rest) v =
        match createPathAndSetValue [] rest v with
        | .error e => .error e
        | .ok sub => .ok (mapSet current key (.obj sub))) ∧
    (∀ w, mapGet current key = some w → (∀ m, w ≠ .obj m) →
      createPathAndSetValue current (⟨key, none, false⟩ :: rest) v =
        .error (.notAMapCreate key)) ∧
    setValueAtPath [] "$.metadata.labels.app" "x" =
      .ok [("metadata", .obj [("labels", .obj [("app", .str "x")])])] := by
  obtain ⟨r, rs, rfl⟩ : ∃ r rs, rest = r :: rs := by
    cases rest with
    | nil => exact absurd rfl hrest
    | cons r rs => exact ⟨r, rs, rfl⟩
  refine ⟨?_, ?_, rfl⟩
  · intro hget
    simp [createPathAndSetValue, hget]
  · intro w hget hnobj
    cases w
    case obj m => exact absurd rfl (hnobj m)
    all_goals simp [createPathAndSetValue, hget]

/-- C8 witness: the first step of the concrete autovivification. -/
theorem autovivification_nonterminal_witness :
    createPathAndSetValue []
      [⟨"metadata", none, false⟩, ⟨"labels", none, false⟩] "x" =
      match createPathAndSetValue [] [⟨"labels", none, false⟩] "x" with
      | .error e => .error e
      | .ok sub => .ok (mapSet [] "metadata" (.obj sub)) :=
  (autovivification_nonterminal [] "metadata" [⟨"labels", none, false⟩] "x"
    (List.cons_ne_nil _ _)).1 rfl

/-- Every error the edit loop produces is the failure of some listed
edit, wrapped with that edit's path string. -/
theorem applyLoop_error_shape :
    ∀ (paths : List PathValue) (target : JMap) (e : EvalError),
      applyLoop target paths = .error e →
      ∃ pv inner, pv ∈ paths ∧ e = .applyFailed pv.path inner := by
  intro paths
  induction paths with
  | nil => intro t e h; simp [applyLoop] at h
  | cons pv rest ih =>
    intro t e h
    rw [applyLoop] at h
    cases hset : setValueAtPath t pv.path pv.value with
    | error err =>
      rw [hset] at h
      injection h with he
      exact ⟨pv, err, List.mem_cons_self pv rest, he.symm⟩
    | ok m =>
      rw [hset] at h
      obtain ⟨pv2, inner, hmem, heq⟩ := ih m e h
      exact ⟨pv2, inner, List.mem_cons_of_mem pv hmem, heq⟩

/-- C9: if any edit fails, the applicator aborts at once - the loop
returns on the first failing edit regardless of what follows - the
error is wrapped with that edit's path string, and the caller-visible
record is the unmodified base, because the typed record is written only
after every edit has succeeded. -/
theorem applyPaths_failure_aborts (target : JMap) (paths : List PathValue)
    (e : EvalError) (h : applyLoop target paths = .error e) :
    ApplyPathsState target paths = (.error e, target) ∧
    (∃ pv inner, pv ∈ paths ∧ e = .applyFailed pv.path inner) ∧
    (∀ (m : JMap) (pv : PathValue) (rest : List PathValue) (err : EvalError),
      setValueAtPath m pv.path pv.value = .error err →
      applyLoop m (pv :: rest) = .error (.applyFailed pv.path err)) := by
  refine ⟨?_, applyLoop_error_shape paths target e h, ?_⟩
  · cases paths with
    | nil => simp [applyLoop] at h
    | cons pv rest => simp [ApplyPathsState, h]
  · intro m pv rest err hset
    rw [applyLoop, hset]

/-- C9 witness: a negative index on an absent array fails the single
edit, the error carries the path, and the record stays empty. -/
theorem applyPaths_failure_aborts_witness :
    applyLoop [] [⟨"$.a[-1].b", "x"⟩] =
      .error (.applyFailed "$.a[-1].b" (.negativeIndexOnEmptyArray (-1))) ∧
    ApplyPathsState [] [⟨"$.a[-1].b", "x"⟩] =
      (.error (.applyFailed "$.a[-1].b" (.negativeIndexOnEmptyArray (-1))), []) :=
  ⟨rfl, (applyPaths_failure_aborts [] [⟨"$.a[-1].b", "x"⟩] _ rfl).1⟩

/-- C4: resolution of a negative requested index i against the array of
current length L that the shared prologue produced: L = 0 fails with the
empty-array error carrying i; otherwise the actual index is L + i, and
if that is still negative both mutators fail with the out-of-bounds
error reporting i and L; on success the terminal write assigns at
position L + i without changing the length, and the navigation descends
into position L + i of an array of unchanged length - a negative index
never extends the sequence. -/
theorem negativeIndex_resolution (parent : JMap) (key : String)
    (arr : List Value) (i : Int) (v : String) (hneg : i < 0)
    (harr : resolveArray parent key = .ok arr) :
    (arr.length = 0 →
      setValueAtArrayIndex parent key i true v =
        .error (.negativeIndexOnEmptyArray i) ∧
      navigateToArrayElement parent key i true =
        .error (.negativeIndexOnEmptyArray i)) ∧
    (arr.length ≠ 0 → (arr.length : Int) + i < 0 →
      setValueAtArrayIndex parent key i true v =
        .error (.negativeIndexOutOfBounds i arr.length) ∧
      navigateToArrayElement parent key i true =
        .error (.negativeIndexOutOfBounds i arr.length)) ∧
    (0 ≤ (arr.length : Int) + i →
      (setValueAtArrayIndex parent key i true v =
        .ok (mapSet parent key
          (.arr (arr.set ((arr.length : Int) + i).toNat (convertValue v)))) ∧
       (arr.set ((arr.length : Int) + i).toNat (convertValue v)).length
         = arr.length) ∧
      ∃ arrOut elem,
        navigateToArrayElement parent key i true =
          .ok (arrOut, ((arr.length : Int) + i).toNat, elem) ∧
        arrOut.length = arr.length) := by
  refine ⟨?_, ?_, ?_⟩
  · intro hlen
    constructor
    · simp [setValueAtArrayIndex, harr, computeActualIndex, hlen]
    · simp [navigateToArrayElement, harr, computeActualIndex, hlen]
  · intro hlen hlt
    constructor
    · simp [setValueAtArrayIndex, harr, computeActualIndex, hlen, hlt]
    · simp [navigateToArrayElement, harr, computeActualIndex, hlen, hlt]
  · intro h0
    have hlen : arr.length ≠ 0 := by omega
    have hx : ¬ ((arr.length : Int) + i < 0) := not_lt.mpr h0
    have htoNat : ((arr.length : Int) + i).toNat < arr.length := by omega
    have hnotle : ¬ (arr.length ≤ ((arr.length : Int) + i).toNat) :=
      Nat.not_le.mpr htoNat
    have hnotleI : ¬ ((arr.length : Int) ≤ (arr.length : Int) + i) := by omega
    refine ⟨⟨?_, List.length_set arr _ _⟩, ?_⟩
    · simp [setValueAtArrayIndex, harr, computeActualIndex, hlen, hx, hnotle]
    · have hw : arr[((arr.length : Int) + i).toNat]? =
          some (arr.get ⟨((arr.length : Int) + i).toNat, htoNat⟩) := by
        rw [List.getElem?_eq_getElem htoNat, List.get_eq_getElem]
      cases helem : arr.get ⟨((arr.length : Int) + i).toNat, htoNat⟩
      all_goals rw [helem] at hw
      case obj m =>
        exact ⟨arr, m, by
          simp [navigateToArrayElement, harr, computeActualIndex, hlen, hx,
            hnotleI, hw], rfl⟩
      all_goals
        exact ⟨arr.set ((arr.length : Int) + i).toNat (.obj []), [], by
          simp [navigateToArrayElement, harr, computeActualIndex, hlen, hx,
            hnotleI, hw], List.length_set arr _ _⟩

/-- C4 witness: on a one-element array, index -5 resolves out of bounds
reporting the requested index and the length 1. -/
theorem negativeIndex_resolution_witness :
    ((-5 : Int) < 0) ∧
    resolveArray [("templates", Value.arr [.str "t"])] "templates" =
      .ok [.str "t"] ∧
    setValueAtArrayIndex [("templates", Value.arr [.str "t"])] "templates"
      (-5) true "v" = .error (.negativeIndexOutOfBounds (-5) 1) := by
  have h := negativeIndex_resolution [("templates", Value.arr [.str "t"])]
    "templates" [.str "t"] (-5) "v" (by decide) rfl
  exact ⟨by decide, rfl, (h.2.1 (by decide) (by decide)).1⟩

/-- Reading inside the replicated block of an append yields the
replicated element. -/
theorem getElem?_append_replicate (l : List Value) (k n : Nat) (x : Value)
    (h1 : l.length ≤ n) (h2 : n < l.length + k) :
    (l ++ List.replicate k x)[n]? = some x := by
  rw [List.getElem?_append_right h1]
  have hlt : n - l.length < k := by omega
  clear h1 h2
  generalize n - l.length = m at hlt
  induction k generalizing m with
  | zero => omega
  | succ k ih =>
    cases m with
    | zero => simp [List.replicate_succ]
    | succ m =>
      rw [List.replicate_succ]
      simpa using ih m (by omega)

/-- C7: a non-terminal indexed segment whose non-negative index is at or
beyond the current length extends the sequence with empty-mapping
elements exactly up to that index and descends into the new empty
element; the two-edit boundary scenario on an empty base yields a
three-element templates array whose middle element is the empty
mapping, while a terminal indexed write pads with nulls instead. -/
theorem positiveIndex_extension (current : JMap) (key : String)
    (arr : List Value) (i : Int) (harr : resolveArray current key = .ok arr)
    (hge : (arr.length : Int) ≤ i) :
    navigateToArrayElement current key i false =
      .ok (arr ++ List.replicate ((i + 1 - arr.length).toNat) (Value.obj []),
        i.toNat, []) ∧
    (arr ++ List.replicate ((i + 1 - arr.length).toNat) (Value.obj [])).length
      = i.toNat + 1 ∧
    applyLoop [] [⟨"$.spec.workflowSpec.templates[0].name", "first"⟩,
      ⟨"$.spec.workflowSpec.templates[2].name", "third"⟩] =
      .ok [("spec", .obj [("workflowSpec", .obj [("templates", .arr
        [.obj [("name", .str "first")], .obj [],
         .obj [("name", .str "third")]])])])] ∧
    setValueAtArrayIndex [] "templates" 2 false "x" =
      .ok [("templates", .arr [.null, .null, .str "x"])] := by
  have h0 : 0 ≤ i := le_trans (Int.natCast_nonneg arr.length) hge
  have hlenext :
      (arr ++ List.replicate ((i + 1 - arr.length).toNat)
        (Value.obj [])).length = i.toNat + 1 := by
    simp only [List.length_append, List.length_replicate]
    omega
  refine ⟨?_, hlenext, rfl, rfl⟩
  have hget :
      (arr ++ List.replicate ((i + 1).toNat - arr.length)
        (Value.obj []))[i.toNat]? = some (Value.obj []) :=
    getElem?_append_replicate _ _ _ _ (by omega) (by omega)
  have hck :
      ¬ ((arr.length : Int) + (((i + 1).toNat - arr.length : Nat) : Int) ≤ i) := by
    omega
  have hx : ¬ (i < 0) := not_lt.mpr h0
  simp [navigateToArrayElement, harr, computeActualIndex, hge, hget,
    hck, hx]

/-- C7 witness: index 2 on an absent array creates three empty-mapping
elements and descends into the last one. -/
theorem positiveIndex_extension_witness :
    resolveArray [] "t" = .ok [] ∧
    navigateToArrayElement [] "t" 2 false =
      .ok ([.obj [], .obj [], .obj []], 2, []) := by
  have h := positiveIndex_extension [] "t" [] 2 rfl (by decide)
  exact ⟨rfl, h.1⟩

end CWR
